import Mathlib

/-!
Verification of the Session Orchestration & Transcript Consolidation Engine
of the AI interview frontend (src/frontend/src/components/Validate.jsx).

Shallow embedding conventions:
* JavaScript strings are modelled as `List Char`; `String.prototype.trim`,
  `startsWith`, `includes` and `.length` become `jsTrim`, `startsWithL`,
  `includesL` and `List.length` (code-unit vs codepoint differences are
  irrelevant for the properties checked here).
* The `formatVapiTranscript` fold state `(result, currentRole, currentText)`
  is an explicit `ConsState`; the JavaScript `currentRole = null` initial
  value is encoded as the empty string, which is behaviourally identical:
  both are falsy in the `currentRole && ...` push guards, and the
  role-equality test `item.role !== currentRole` can never see an empty
  `item.role` (such items are skipped by the `!item.role` guard).
* Fragments and finalized utterances share one JavaScript object shape
  `{role, text}`; both are `Msg` here.
-/

/-- One transcript message `{role, text}` as produced by the Vapi `message`
handler and consumed/produced by `formatVapiTranscript`. -/
structure Msg where
  role : String
  text : List Char
deriving DecidableEq, Repr

/-- Whitespace predicate used to model JavaScript `trim` boundaries. -/
def wsChar (c : Char) : Bool := Char.isWhitespace c

/-- Model of JavaScript `String.prototype.trim`: drop whitespace from both
ends. -/
def jsTrim (s : List Char) : List Char :=
  ((s.dropWhile wsChar).reverse.dropWhile wsChar).reverse

/-- Model of JavaScript `s.startsWith(pre)`: `startsWithL s pre` is true iff
`pre` is a prefix of `s`. -/
def startsWithL : List Char → List Char → Bool
  | _, [] => true
  | [], _ :: _ => false
  | c :: cs, p :: ps => c = p && startsWithL cs ps

/-- Model of JavaScript `hay.includes(sub)`: true iff `sub` occurs as a
contiguous substring of `hay`. -/
def includesL (hay sub : List Char) : Bool :=
  match hay with
  | [] => startsWithL [] sub
  | _ :: t => startsWithL hay sub || includesL t sub

/-- The mutable state of the `formatVapiTranscript` loop
(Validate.jsx lines 482-484): the finalized `result` array, `currentRole`
(`""` encodes the initial JavaScript `null`) and `currentText`. -/
structure ConsState where
  result : List Msg
  currentRole : String
  currentText : List Char
deriving DecidableEq, Repr

/-- One iteration of the `formatVapiTranscript` loop body
(Validate.jsx lines 486-520), transcribed clause by clause:
the `!item.role || !item.text` skip guard, the
`item.role !== currentRole` role-change branch with its
`currentRole && currentText.trim()` push guard, the progressive-growth
replacement, the `!currentText.includes(item.text) && item.text.trim()`
append, and the silent discard. -/
def consStep (s : ConsState) (item : Msg) : ConsState :=
  if item.role = "" ∨ item.text = [] then s
  else if item.role = s.currentRole then
    if s.currentText.length < item.text.length ∧
        startsWithL item.text (jsTrim s.currentText) = true then
      { result := s.result, currentRole := s.currentRole, currentText := item.text }
    else if includesL s.currentText item.text = false ∧ jsTrim item.text ≠ [] then
      { result := s.result, currentRole := s.currentRole,
        currentText := s.currentText ++ ' ' :: item.text }
    else s
  else
    { result :=
        if s.currentRole ≠ "" ∧ jsTrim s.currentText ≠ [] then
          s.result ++ [⟨s.currentRole, jsTrim s.currentText⟩]
        else s.result,
      currentRole := item.role,
      currentText := item.text }

/-- The trailing flush of `formatVapiTranscript`
(Validate.jsx lines 522-528): push the open accumulator if `currentRole`
is truthy and the trimmed text is non-empty. -/
def consFlush (s : ConsState) : List Msg :=
  if s.currentRole ≠ "" ∧ jsTrim s.currentText ≠ [] then
    s.result ++ [⟨s.currentRole, jsTrim s.currentText⟩]
  else s.result

/-- `formatVapiTranscript` (Validate.jsx lines 477-531).  The early return
for a non-array/empty argument coincides with folding over the empty list,
whose flush pushes nothing. -/
def formatVapiTranscript (ts : List Msg) : List Msg :=
  consFlush (ts.foldl consStep ⟨[], "", []⟩)

/-- `formatTranscriptForLLM` (Validate.jsx lines 535-548): re-consolidate,
then fold the `forEach` string building over the result, starting from the
header. -/
def formatTranscriptForLLM (ts : List Msg) : String :=
  (formatVapiTranscript ts).foldl
    (fun acc m =>
      acc ++ (if m.role = "assistant" then "AI INTERVIEWER" else "CANDIDATE")
          ++ ": " ++ String.mk m.text ++ "\n\n")
    "INTERVIEW TRANSCRIPT:\n\n"

/-- The rendering the specification describes for the Evaluation
Dispatcher: the header, then for each Utterance of the given (already
consolidated) transcript one `<SPEAKER LABEL>: <text>` block.  Defined from
the spec's words for refinement comparison against
`formatTranscriptForLLM`, which re-consolidates its input instead of
rendering it as is. -/
def renderSpecDoc (c : List Msg) : String :=
  c.foldl
    (fun acc m =>
      acc ++ (if m.role = "assistant" then "AI INTERVIEWER" else "CANDIDATE")
          ++ ": " ++ String.mk m.text ++ "\n\n")
    "INTERVIEW TRANSCRIPT:\n\n"

/-- A fragment stream is whitespace-free when every fragment text is either
the empty string (skipped by the `!item.text` guard) or has non-empty trim. -/
def wsFree (t : List Msg) : Prop := ∀ m ∈ t, m.text = [] ∨ jsTrim m.text ≠ []

/-- Normal form of a finalized utterance: truthy role, non-empty text that
equals its own trim. -/
def wfMsg (m : Msg) : Prop := m.role ≠ "" ∧ m.text ≠ [] ∧ jsTrim m.text = m.text

/-- Adjacent finalized utterances have distinct roles. -/
def Rne (a b : Msg) : Prop := a.role ≠ b.role

-- Smoke tests of the embedding against the spec's §8 examples.
example : formatVapiTranscript
    [⟨"assistant", "Hello".toList⟩, ⟨"assistant", "Hello there".toList⟩]
    = [⟨"assistant", "Hello there".toList⟩] := by decide

example : formatVapiTranscript
    [⟨"assistant", "Hello".toList⟩, ⟨"user", "Hi".toList⟩]
    = [⟨"assistant", "Hello".toList⟩, ⟨"user", "Hi".toList⟩] := by decide

example : formatVapiTranscript
    [⟨"user", "Yes".toList⟩, ⟨"user", "Also I think so".toList⟩]
    = [⟨"user", "Yes Also I think so".toList⟩] := by decide

example : formatVapiTranscript
    [⟨"user", "Ready".toList⟩, ⟨"user", "Ready".toList⟩]
    = [⟨"user", "Ready".toList⟩] := by decide

-- ### Properties of the `trim` model

theorem dropWhile_head_false {p : Char → Bool} :
    ∀ (l : List Char) (a : Char) (t : List Char),
      l.dropWhile p = a :: t → p a = false := by
  intro l
  induction l with
  | nil => intro a t h; simp [List.dropWhile] at h
  | cons b l ih =>
    intro a t h
    by_cases hb : p b
    · rw [List.dropWhile_cons, if_pos hb] at h
      exact ih a t h
    · rw [List.dropWhile_cons, if_neg hb] at h
      cases h
      simpa using hb

theorem dropWhile_idem (p : Char → Bool) (l : List Char) :
    (l.dropWhile p).dropWhile p = l.dropWhile p := by
  cases h : l.dropWhile p with
  | nil => rfl
  | cons a t =>
    rw [List.dropWhile_cons, if_neg]
    simp [dropWhile_head_false l a t h]

theorem dropWhile_is_suffix (p : Char → Bool) (l : List Char) :
    ∃ u, u ++ l.dropWhile p = l := by
  induction l with
  | nil => exact ⟨[], rfl⟩
  | cons a t ih =>
    by_cases h : p a
    · obtain ⟨u, hu⟩ := ih
      exact ⟨a :: u, by rw [List.dropWhile_cons, if_pos h, List.cons_append, hu]⟩
    · exact ⟨[], by rw [List.dropWhile_cons, if_neg h, List.nil_append]⟩

theorem jsTrim_is_prefix_of_dropWhile (l : List Char) :
    ∃ v, jsTrim l ++ v = l.dropWhile wsChar := by
  obtain ⟨u, hu⟩ := dropWhile_is_suffix wsChar (l.dropWhile wsChar).reverse
  refine ⟨u.reverse, ?_⟩
  have := congrArg List.reverse hu
  simpa [jsTrim] using this

theorem dropWhile_jsTrim (l : List Char) :
    (jsTrim l).dropWhile wsChar = jsTrim l := by
  cases h : jsTrim l with
  | nil => rfl
  | cons a t =>
    obtain ⟨v, hv⟩ := jsTrim_is_prefix_of_dropWhile l
    rw [h, List.cons_append] at hv
    rw [List.dropWhile_cons, if_neg]
    simp [dropWhile_head_false l a (t ++ v) hv.symm]

theorem jsTrim_idem (l : List Char) : jsTrim (jsTrim l) = jsTrim l := by
  show ((((jsTrim l).dropWhile wsChar).reverse).dropWhile wsChar).reverse = jsTrim l
  rw [dropWhile_jsTrim]
  show ((((((l.dropWhile wsChar).reverse).dropWhile wsChar).reverse).reverse).dropWhile wsChar).reverse = jsTrim l
  rw [List.reverse_reverse, dropWhile_idem]
  rfl

theorem jsTrim_eq_nil_iff (l : List Char) :
    jsTrim l = [] ↔ ∀ c ∈ l, wsChar c = true := by
  constructor
  · intro h c hc
    have h1 : (l.dropWhile wsChar).reverse.dropWhile wsChar = [] := by
      have := congrArg List.reverse h
      simpa [jsTrim] using this
    have h2 : ∀ c ∈ l.dropWhile wsChar, wsChar c = true := by
      intro c hc
      exact List.dropWhile_eq_nil_iff.mp h1 c (List.mem_reverse.mpr hc)
    rcases (List.mem_append.mp
        (by rw [List.takeWhile_append_dropWhile] ; exact hc :
          c ∈ l.takeWhile wsChar ++ l.dropWhile wsChar)) with h3 | h3
    · exact List.mem_takeWhile_imp h3
    · exact h2 c h3
  · intro h
    have h1 : l.dropWhile wsChar = [] := List.dropWhile_eq_nil_iff.mpr h
    simp [jsTrim, h1]

theorem jsTrim_append_ne_nil (x y : List Char) (h : jsTrim x ≠ []) :
    jsTrim (x ++ y) ≠ [] := by
  intro hc
  exact h (jsTrim_eq_nil_iff x |>.mpr fun c hc' =>
    (jsTrim_eq_nil_iff (x ++ y)).mp hc c (List.mem_append_left y hc'))

theorem jsTrim_nil : jsTrim [] = [] := rfl

theorem jsTrim_ne_nil_of_eq (x : List Char) (h : jsTrim x = x) (hne : x ≠ []) :
    jsTrim x ≠ [] := by rw [h] ; exact hne

-- ### Consolidator invariants

theorem consStep_skip (s : ConsState) (item : Msg)
    (h : item.role = "" ∨ item.text = []) : consStep s item = s := by
  unfold consStep
  rw [if_pos h]

/-- Unconditional invariant: every finalized utterance in `result` is
pushed through one of the two guarded `result.push` sites, hence
well-formed. -/
theorem result_wf_step (s : ConsState) (item : Msg)
    (h : ∀ m ∈ s.result, wfMsg m) : ∀ m ∈ (consStep s item).result, wfMsg m := by
  unfold consStep
  by_cases hskip : item.role = "" ∨ item.text = []
  · rw [if_pos hskip]; exact h
  · rw [if_neg hskip]
    by_cases hsame : item.role = s.currentRole
    · rw [if_pos hsame]
      by_cases hgrow : s.currentText.length < item.text.length ∧
          startsWithL item.text (jsTrim s.currentText) = true
      · rw [if_pos hgrow]; exact h
      · rw [if_neg hgrow]
        by_cases happ : includesL s.currentText item.text = false ∧ jsTrim item.text ≠ []
        · rw [if_pos happ]; exact h
        · rw [if_neg happ]; exact h
    · rw [if_neg hsame]
      by_cases hpush : s.currentRole ≠ "" ∧ jsTrim s.currentText ≠ []
      · rw [if_pos hpush]
        intro m hm
        rcases List.mem_append.mp hm with hm | hm
        · exact h m hm
        · have : m = ⟨s.currentRole, jsTrim s.currentText⟩ := by simpa using hm
          rw [this]
          exact ⟨hpush.1, hpush.2, jsTrim_idem _⟩
      · rw [if_neg hpush]; exact h

theorem result_wf_flush (s : ConsState)
    (h : ∀ m ∈ s.result, wfMsg m) : ∀ m ∈ consFlush s, wfMsg m := by
  unfold consFlush
  by_cases hpush : s.currentRole ≠ "" ∧ jsTrim s.currentText ≠ []
  · rw [if_pos hpush]
    intro m hm
    rcases List.mem_append.mp hm with hm | hm
    · exact h m hm
    · have : m = ⟨s.currentRole, jsTrim s.currentText⟩ := by simpa using hm
      rw [this]
      exact ⟨hpush.1, hpush.2, jsTrim_idem _⟩
  · rw [if_neg hpush]; exact h

theorem result_wf_foldl (t : List Msg) (s : ConsState)
    (h : ∀ m ∈ s.result, wfMsg m) :
    ∀ m ∈ (t.foldl consStep s).result, wfMsg m := by
  induction t generalizing s with
  | nil => exact h
  | cons u t ih => exact ih (consStep s u) (result_wf_step s u h)

theorem formatVapi_wfMsg (t : List Msg) :
    ∀ m ∈ formatVapiTranscript t, wfMsg m :=
  result_wf_flush _ (result_wf_foldl t ⟨[], "", []⟩ (by simp))

/-- Invariant maintained while folding a whitespace-free stream: the result
is a chain of well-formed utterances with pairwise-distinct adjacent roles,
and the open accumulator (truthy `currentRole`) has non-empty trimmed text
and differs in role from the last finalized utterance. -/
def stInv (s : ConsState) : Prop :=
  List.Chain' Rne s.result ∧ (∀ m ∈ s.result, wfMsg m) ∧
  (s.currentRole = "" → s.result = [] ∧ s.currentText = []) ∧
  (s.currentRole ≠ "" → jsTrim s.currentText ≠ [] ∧
    ∀ m ∈ s.result.getLast?, m.role ≠ s.currentRole)

theorem stInv_init : stInv ⟨[], "", []⟩ := by
  refine ⟨List.chain'_nil, by simp, fun _ => ⟨rfl, rfl⟩, fun hc => absurd rfl hc⟩

theorem stInv_step (s : ConsState) (item : Msg)
    (hws : item.text = [] ∨ jsTrim item.text ≠ [])
    (h : stInv s) : stInv (consStep s item) := by
  obtain ⟨hch, hwf, hnil, hopen⟩ := h
  unfold stInv consStep
  by_cases hskip : item.role = "" ∨ item.text = []
  · rw [if_pos hskip]; exact ⟨hch, hwf, hnil, hopen⟩
  · rw [if_neg hskip]
    push_neg at hskip
    obtain ⟨hrole, htext⟩ := hskip
    have htrim : jsTrim item.text ≠ [] := hws.resolve_left htext
    by_cases hsame : item.role = s.currentRole
    · rw [if_pos hsame]
      have hcur : s.currentRole ≠ "" := by rw [← hsame]; exact hrole
      obtain ⟨hct, hlast⟩ := hopen hcur
      by_cases hgrow : s.currentText.length < item.text.length ∧
          startsWithL item.text (jsTrim s.currentText) = true
      · rw [if_pos hgrow]
        exact ⟨hch, hwf, fun hc => absurd hc hcur, fun _ => ⟨htrim, hlast⟩⟩
      · rw [if_neg hgrow]
        by_cases happ : includesL s.currentText item.text = false ∧ jsTrim item.text ≠ []
        · rw [if_pos happ]
          exact ⟨hch, hwf, fun hc => absurd hc hcur,
            fun _ => ⟨jsTrim_append_ne_nil _ _ hct, hlast⟩⟩
        · rw [if_neg happ]; exact ⟨hch, hwf, hnil, hopen⟩
    · rw [if_neg hsame]
      by_cases hcur : s.currentRole = ""
      · rw [if_neg (fun hc => hc.1 hcur)]
        obtain ⟨hres, _⟩ := hnil hcur
        refine ⟨hch, hwf, fun hc => absurd hc hrole, fun _ => ⟨htrim, ?_⟩⟩
        rw [hres]
        simp
      · obtain ⟨hct, hlast⟩ := hopen hcur
        rw [if_pos ⟨hcur, hct⟩]
        refine ⟨?_, ?_, fun hc => absurd hc hrole, fun _ => ⟨htrim, ?_⟩⟩
        · rw [List.chain'_append]
          refine ⟨hch, List.chain'_singleton _, ?_⟩
          intro x hx y hy
          have hy' : (⟨s.currentRole, jsTrim s.currentText⟩ : Msg) = y := by simpa using hy
          rw [← hy']
          exact hlast x hx
        · intro m hm
          rcases List.mem_append.mp hm with hm | hm
          · exact hwf m hm
          · have hm' : m = (⟨s.currentRole, jsTrim s.currentText⟩ : Msg) := by simpa using hm
            rw [hm']
            exact ⟨hcur, hct, jsTrim_idem _⟩
        · rw [List.getLast?_concat]
          intro m hm
          have hm' : (⟨s.currentRole, jsTrim s.currentText⟩ : Msg) = m := by simpa using hm
          rw [← hm']
          exact fun hc => hsame hc.symm

theorem stInv_foldl (t : List Msg) (s : ConsState)
    (hws : ∀ m ∈ t, m.text = [] ∨ jsTrim m.text ≠ [])
    (h : stInv s) : stInv (t.foldl consStep s) := by
  induction t generalizing s with
  | nil => exact h
  | cons u t ih =>
    exact ih (consStep s u) (fun m hm => hws m (List.mem_cons_of_mem u hm))
      (stInv_step s u (hws u (List.mem_cons_self u t)) h)

theorem chain_flush (s : ConsState) (h : stInv s) :
    List.Chain' Rne (consFlush s) := by
  obtain ⟨hch, hwf, hnil, hopen⟩ := h
  unfold consFlush
  by_cases hpush : s.currentRole ≠ "" ∧ jsTrim s.currentText ≠ []
  · rw [if_pos hpush]
    obtain ⟨_, hlast⟩ := hopen hpush.1
    rw [List.chain'_append]
    refine ⟨hch, List.chain'_singleton _, ?_⟩
    intro x hx y hy
    have hy' : (⟨s.currentRole, jsTrim s.currentText⟩ : Msg) = y := by simpa using hy
    rw [← hy']
    exact hlast x hx
  · rw [if_neg hpush]; exact hch

theorem formatVapi_chain (t : List Msg) (h : wsFree t) :
    List.Chain' Rne (formatVapiTranscript t) :=
  chain_flush _ (stInv_foldl t ⟨[], "", []⟩ h stInv_init)

-- ### Re-consolidation of an already consolidated transcript

theorem refold_wf (l : List Msg) :
    ∀ (res : List Msg) (r : String) (x : List Char),
      (∀ m ∈ l, wfMsg m) → List.Chain' Rne l →
      r ≠ "" → jsTrim x = x → x ≠ [] →
      (∀ m ∈ l.head?, m.role ≠ r) →
      consFlush (l.foldl consStep ⟨res, r, x⟩) = res ++ ⟨r, x⟩ :: l := by
  induction l with
  | nil =>
    intro res r x _ _ hr hx hxne _
    show consFlush ⟨res, r, x⟩ = res ++ [⟨r, x⟩]
    unfold consFlush
    dsimp only
    rw [if_pos ⟨hr, by rw [hx] ; exact hxne⟩, hx]
  | cons u l ih =>
    intro res r x hwf hch hr hx hxne hhd
    obtain ⟨hur, hut, hutr⟩ := hwf u (List.mem_cons_self u l)
    have hune : u.role ≠ r := hhd u (by simp)
    rw [List.foldl_cons]
    have hstep : consStep ⟨res, r, x⟩ u = ⟨res ++ [⟨r, x⟩], u.role, u.text⟩ := by
      unfold consStep
      dsimp only
      rw [if_neg (by push_neg ; exact ⟨hur, hut⟩), if_neg hune,
        if_pos ⟨hr, by rw [hx] ; exact hxne⟩, hx]
    rw [hstep]
    have hch' := List.chain'_cons'.mp hch
    have hrec := ih (res ++ [⟨r, x⟩]) u.role u.text
      (fun m hm => hwf m (List.mem_cons_of_mem u hm)) hch'.2 hur hutr hut
      (fun m hm => (hch'.1 m hm).symm)
    rw [hrec]
    simp

theorem formatVapi_of_wf (l : List Msg)
    (hwf : ∀ m ∈ l, wfMsg m) (hch : List.Chain' Rne l) :
    formatVapiTranscript l = l := by
  cases l with
  | nil => rfl
  | cons u l =>
    obtain ⟨hur, hut, hutr⟩ := hwf u (List.mem_cons_self u l)
    unfold formatVapiTranscript
    rw [List.foldl_cons]
    have hstep : consStep ⟨[], "", []⟩ u = ⟨[], u.role, u.text⟩ := by
      unfold consStep
      dsimp only
      rw [if_neg (by push_neg ; exact ⟨hur, hut⟩), if_neg hur,
        if_neg (by intro hc ; exact hc.1 rfl)]
    rw [hstep]
    have hch' := List.chain'_cons'.mp hch
    have hrec := refold_wf l [] u.role u.text
      (fun m hm => hwf m (List.mem_cons_of_mem u hm)) hch'.2 hur hutr hut
      (fun m hm => (hch'.1 m hm).symm)
    rw [hrec]
    simp

theorem formatVapi_idem_of_wsFree (t : List Msg) (h : wsFree t) :
    formatVapiTranscript (formatVapiTranscript t) = formatVapiTranscript t :=
  formatVapi_of_wf _ (formatVapi_wfMsg t) (formatVapi_chain t h)

-- ### Fragments with empty text are skipped

theorem foldl_filter_empty_text (t : List Msg) (s : ConsState) :
    (t.filter fun m => !m.text.isEmpty).foldl consStep s = t.foldl consStep s := by
  induction t generalizing s with
  | nil => rfl
  | cons u t ih =>
    by_cases hu : u.text = []
    · rw [List.filter_cons, if_neg (by simp [hu]),
        List.foldl_cons, consStep_skip s u (Or.inr hu), ih]
    · rw [List.filter_cons, if_pos (by simp [hu]),
        List.foldl_cons, List.foldl_cons, ih]

theorem formatVapi_filter_empty_text (t : List Msg) :
    formatVapiTranscript t = formatVapiTranscript (t.filter fun m => !m.text.isEmpty) := by
  unfold formatVapiTranscript
  rw [foldl_filter_empty_text]

-- ### Session controller event model (Validate.jsx lines 550-630)

/-- The discrete events the `Interview` component reacts to: the Vapi
lifecycle events subscribed in the `useEffect` (lines 555-586) plus the
user clicking End Interview, which invokes `endCall` (line 599). -/
inductive VEvent where
  | callStart
  | callEnd
  | speechStart
  | speechEnd
  | message (role : String) (text : List Char)
  | vapiError
  | userEndCall
deriving DecidableEq, Repr

/-- Component state touched by the handlers: `isConnected`, `isSpeaking`,
the raw `transcript` array, and a count of Evaluation Dispatcher
invocations (each `endCall` runs `run(transcriptString, userId)`, i.e.
one evaluation followed by one persistence update). -/
structure InterviewState where
  isConnected : Bool
  isSpeaking : Bool
  transcript : List Msg
  dispatches : Nat
deriving DecidableEq, Repr

def initInterview : InterviewState :=
  { isConnected := false, isSpeaking := false, transcript := [], dispatches := 0 }

/-- Event handlers exactly as registered in the source: `call-start` sets
`isConnected`; `call-end` clears `isConnected`/`isSpeaking` and does
nothing else (lines 559-562); `message` appends a `{role, text}` fragment;
`error` only logs; `endCall` stops Vapi and dispatches the evaluation
(lines 599-629; `vapi` is non-null once the mount effect has run). -/
def handleEvent (s : InterviewState) (e : VEvent) : InterviewState :=
  match e with
  | VEvent.callStart => { s with isConnected := true }
  | VEvent.callEnd => { s with isConnected := false, isSpeaking := false }
  | VEvent.speechStart => { s with isSpeaking := true }
  | VEvent.speechEnd => { s with isSpeaking := false }
  | VEvent.message r x => { s with transcript := s.transcript ++ [⟨r, x⟩] }
  | VEvent.vapiError => s
  | VEvent.userEndCall => { s with dispatches := s.dispatches + 1 }

def isUserEndCall : VEvent → Bool
  | VEvent.userEndCall => true
  | _ => false

def isCallEnd : VEvent → Bool
  | VEvent.callEnd => true
  | _ => false

theorem dispatches_foldl (es : List VEvent) (s : InterviewState) :
    (es.foldl handleEvent s).dispatches = s.dispatches + es.countP isUserEndCall := by
  induction es generalizing s with
  | nil => simp
  | cons e es ih =>
    rw [List.foldl_cons, ih, List.countP_cons]
    cases e <;> simp [handleEvent, isUserEndCall]
    omega

-- ### Presence monitor model (Validate.jsx lines 446-470)

/-- Events of the face-detection interval: a 1-second tick with the webcam
video ready or not, and the asynchronous return of one earlier
`estimateFaces` call. -/
inductive MonEvent where
  | tick (videoReady : Bool)
  | resolve
deriving DecidableEq, Repr

/-- Number of `detector.estimateFaces` calls issued and not yet returned. -/
structure MonitorState where
  inFlight : Nat
deriving DecidableEq, Repr

/-- The `detectFaces` interval handler as written: on every tick with a
ready video it awaits a fresh `detector.estimateFaces(video)` call; there
is no check whether a previous call is still pending.  A `resolve` event
is one call returning (successfully or not). -/
def monStep (s : MonitorState) (e : MonEvent) : MonitorState :=
  match e with
  | MonEvent.tick ready => if ready then { inFlight := s.inFlight + 1 } else s
  | MonEvent.resolve => { inFlight := s.inFlight - 1 }

-- ### Claims

/-- C1: Progressive growth — with an open accumulator (truthy role), a
same-role fragment whose text is strictly longer than the accumulator text
and starts with its trim replaces the accumulator text, finalizing no new
utterance; in particular the two fragments (Interviewer, "Hello") and
(Interviewer, "Hello there") consolidate to the single utterance
(Interviewer, "Hello there"). -/
theorem c1_progressive_growth (s : ConsState) (item : Msg)
    (hopen : s.currentRole ≠ "") (hrole : item.role = s.currentRole)
    (hlen : s.currentText.length < item.text.length)
    (hpre : startsWithL item.text (jsTrim s.currentText) = true) :
    consStep s item
      = { result := s.result, currentRole := s.currentRole, currentText := item.text }
    ∧ formatVapiTranscript
        [⟨"assistant", "Hello".toList⟩, ⟨"assistant", "Hello there".toList⟩]
      = [⟨"assistant", "Hello there".toList⟩] := by
  refine ⟨?_, by decide⟩
  have htext : item.text ≠ [] := by
    intro hc
    rw [hc] at hlen
    simp at hlen
  unfold consStep
  rw [if_neg (by push_neg ; exact ⟨by rw [hrole] ; exact hopen, htext⟩), if_pos hrole,
    if_pos ⟨hlen, hpre⟩]

/-- Witness for C1 at the spec's concrete example. -/
theorem c1_progressive_growth_witness :
    consStep ⟨[], "assistant", "Hello".toList⟩ ⟨"assistant", "Hello there".toList⟩
      = { result := [], currentRole := "assistant", currentText := "Hello there".toList }
    ∧ formatVapiTranscript
        [⟨"assistant", "Hello".toList⟩, ⟨"assistant", "Hello there".toList⟩]
      = [⟨"assistant", "Hello there".toList⟩] :=
  c1_progressive_growth ⟨[], "assistant", "Hello".toList⟩ ⟨"assistant", "Hello there".toList⟩
    (by decide) (by decide) (by decide) (by decide)

/-- C2: Speaker switch flush — with an open accumulator of truthy role and
non-empty trimmed text, a fragment of a different (truthy) role closes the
accumulator as a finalized utterance (with trimmed text) and opens a new
accumulator with the fragment's role and text; in particular
(Interviewer, "Hello") then (Candidate, "Hi") consolidate to the
two-utterance transcript. -/
theorem c2_speaker_switch_flush (s : ConsState) (item : Msg)
    (hopen : s.currentRole ≠ "") (htrim : jsTrim s.currentText ≠ [])
    (hrole : item.role ≠ s.currentRole) (hrne : item.role ≠ "")
    (htext : item.text ≠ []) :
    consStep s item
      = { result := s.result ++ [⟨s.currentRole, jsTrim s.currentText⟩],
          currentRole := item.role, currentText := item.text }
    ∧ formatVapiTranscript [⟨"assistant", "Hello".toList⟩, ⟨"user", "Hi".toList⟩]
      = [⟨"assistant", "Hello".toList⟩, ⟨"user", "Hi".toList⟩] := by
  refine ⟨?_, by decide⟩
  unfold consStep
  rw [if_neg (by push_neg ; exact ⟨hrne, htext⟩), if_neg hrole, if_pos ⟨hopen, htrim⟩]

/-- Witness for C2 at the spec's concrete example. -/
theorem c2_speaker_switch_flush_witness :
    consStep ⟨[], "assistant", "Hello".toList⟩ ⟨"user", "Hi".toList⟩
      = { result := [⟨"assistant", jsTrim "Hello".toList⟩],
          currentRole := "user", currentText := "Hi".toList }
    ∧ formatVapiTranscript [⟨"assistant", "Hello".toList⟩, ⟨"user", "Hi".toList⟩]
      = [⟨"assistant", "Hello".toList⟩, ⟨"user", "Hi".toList⟩] :=
  c2_speaker_switch_flush ⟨[], "assistant", "Hello".toList⟩ ⟨"user", "Hi".toList⟩
    (by decide) (by decide) (by decide) (by decide) (by decide)

/-- C3 counterexample: accumulator (assistant, "Hello") and same-role
fragment "  " (two spaces): the fragment is not a growth, the accumulator
does not contain it, yet the code discards it (the accumulator is
unchanged, not appended with a separating space), because the append branch
additionally requires `item.text.trim()` to be truthy. -/
theorem c3_counterexample :
    includesL "Hello".toList "  ".toList = false
    ∧ ¬("Hello".toList.length < "  ".toList.length)
    ∧ consStep ⟨[], "assistant", "Hello".toList⟩ ⟨"assistant", "  ".toList⟩
        = ⟨[], "assistant", "Hello".toList⟩
    ∧ "Hello".toList ≠ "Hello".toList ++ ' ' :: "  ".toList := by decide

/-- C3 (amended): a same-role fragment that is not a progressive growth is
appended with exactly one separating space iff the accumulator text does
not contain the fragment text AND the fragment text has non-empty trim;
otherwise the accumulator is unchanged.  The spec's concrete examples
(disjoint clause and duplicate suppression) hold. -/
theorem c3_same_role_append_iff (s : ConsState) (item : Msg)
    (hopen : s.currentRole ≠ "") (hrole : item.role = s.currentRole)
    (htext : item.text ≠ [])
    (hng : ¬(s.currentText.length < item.text.length ∧
        startsWithL item.text (jsTrim s.currentText) = true)) :
    (consStep s item
        = { result := s.result, currentRole := s.currentRole,
            currentText := s.currentText ++ ' ' :: item.text }
      ↔ (includesL s.currentText item.text = false ∧ jsTrim item.text ≠ []))
    ∧ (¬(includesL s.currentText item.text = false ∧ jsTrim item.text ≠ []) →
        consStep s item = s)
    ∧ formatVapiTranscript [⟨"user", "Yes".toList⟩, ⟨"user", "Also I think so".toList⟩]
        = [⟨"user", "Yes Also I think so".toList⟩]
    ∧ formatVapiTranscript [⟨"user", "Ready".toList⟩, ⟨"user", "Ready".toList⟩]
        = [⟨"user", "Ready".toList⟩] := by
  have hguard : ¬(item.role = "" ∨ item.text = []) := by
    push_neg
    exact ⟨by rw [hrole] ; exact hopen, htext⟩
  have happend : ∀ _ : includesL s.currentText item.text = false ∧ jsTrim item.text ≠ [],
      consStep s item
        = { result := s.result, currentRole := s.currentRole,
            currentText := s.currentText ++ ' ' :: item.text } := by
    intro happ
    unfold consStep
    rw [if_neg hguard, if_pos hrole, if_neg hng, if_pos happ]
  have hdiscard : ¬(includesL s.currentText item.text = false ∧ jsTrim item.text ≠ []) →
      consStep s item = s := by
    intro happ
    unfold consStep
    rw [if_neg hguard, if_pos hrole, if_neg hng, if_neg happ]
  refine ⟨⟨?_, happend⟩, hdiscard, by decide, by decide⟩
  intro heq
  by_contra hc
  rw [hdiscard hc] at heq
  have hlen := congrArg (fun st => st.currentText.length) heq
  simp [List.length_append] at hlen

/-- Witness for C3 (amended) at the spec's disjoint-clause example. -/
theorem c3_same_role_append_iff_witness :
    (consStep ⟨[], "user", "Yes".toList⟩ ⟨"user", "Also I think so".toList⟩
        = { result := [], currentRole := "user",
            currentText := "Yes".toList ++ ' ' :: "Also I think so".toList }
      ↔ (includesL "Yes".toList "Also I think so".toList = false
          ∧ jsTrim "Also I think so".toList ≠ []))
    ∧ (¬(includesL "Yes".toList "Also I think so".toList = false
          ∧ jsTrim "Also I think so".toList ≠ []) →
        consStep ⟨[], "user", "Yes".toList⟩ ⟨"user", "Also I think so".toList⟩
          = ⟨[], "user", "Yes".toList⟩)
    ∧ formatVapiTranscript [⟨"user", "Yes".toList⟩, ⟨"user", "Also I think so".toList⟩]
        = [⟨"user", "Yes Also I think so".toList⟩]
    ∧ formatVapiTranscript [⟨"user", "Ready".toList⟩, ⟨"user", "Ready".toList⟩]
        = [⟨"user", "Ready".toList⟩] :=
  c3_same_role_append_iff ⟨[], "user", "Yes".toList⟩ ⟨"user", "Also I think so".toList⟩
    (by decide) (by decide) (by decide) (by decide)

/-- C4 counterexample: the whitespace-only fragment (user, "   ") is not
silently discarded — it changes the open accumulator's role, so the stream
(assistant, "Hello"), (user, "   "), (assistant, "there") consolidates
differently from the same stream with trim-empty fragments removed. -/
theorem c4_counterexample :
    consStep ⟨[], "assistant", "Hello".toList⟩ ⟨"user", "   ".toList⟩
        ≠ ⟨[], "assistant", "Hello".toList⟩
    ∧ jsTrim "   ".toList = []
    ∧ formatVapiTranscript
        [⟨"assistant", "Hello".toList⟩, ⟨"user", "   ".toList⟩, ⟨"assistant", "there".toList⟩]
      ≠ formatVapiTranscript
        (List.filter (fun m => !(jsTrim m.text).isEmpty)
          [⟨"assistant", "Hello".toList⟩, ⟨"user", "   ".toList⟩,
            ⟨"assistant", "there".toList⟩]) := by decide

/-- C4 (amended): only fragments whose text is the empty string (falsy in
the `!item.text` guard) are inert: such a fragment leaves the whole
consolidator state unchanged, and consolidating a stream equals
consolidating it with all empty-text fragments removed.  Whitespace-only
but non-empty fragments are NOT discarded (see the counterexample). -/
theorem c4_empty_fragment_discarded (t : List Msg) (s : ConsState) (item : Msg)
    (h : item.text = []) :
    consStep s item = s
    ∧ formatVapiTranscript t = formatVapiTranscript (t.filter fun m => !m.text.isEmpty) :=
  ⟨consStep_skip s item (Or.inr h), formatVapi_filter_empty_text t⟩

/-- Witness for C4 (amended) at a concrete state and stream. -/
theorem c4_empty_fragment_discarded_witness :
    consStep ⟨[], "assistant", "Hello".toList⟩ ⟨"user", []⟩
        = ⟨[], "assistant", "Hello".toList⟩
    ∧ formatVapiTranscript [⟨"assistant", "Hello".toList⟩, ⟨"user", []⟩]
        = formatVapiTranscript
            ([⟨"assistant", "Hello".toList⟩, ⟨"user", ([] : List Char)⟩].filter
              fun m => !m.text.isEmpty) :=
  c4_empty_fragment_discarded [⟨"assistant", "Hello".toList⟩, ⟨"user", []⟩]
    ⟨[], "assistant", "Hello".toList⟩ ⟨"user", []⟩ rfl

/-- C5 counterexample: the stream (assistant, "Hello"), (user, "   "),
(assistant, "Hello") consolidates to two adjacent utterances with the same
role and identical text — the whitespace-only middle fragment switches the
role without a flushable accumulator, so no push separates the two. -/
theorem c5_counterexample :
    formatVapiTranscript
        [⟨"assistant", "Hello".toList⟩, ⟨"user", "   ".toList⟩,
          ⟨"assistant", "Hello".toList⟩]
      = [⟨"assistant", "Hello".toList⟩, ⟨"assistant", "Hello".toList⟩] := by decide

/-- C5 (amended): for every stream in which each fragment text is empty or
has non-empty trim, the consolidated transcript (final flush included)
never contains two adjacent utterances with the same role and identical
text (adjacent roles are in fact always distinct). -/
theorem c5_no_adjacent_duplicates (t : List Msg) (h : wsFree t) :
    List.Chain' (fun a b => ¬(a.role = b.role ∧ a.text = b.text))
      (formatVapiTranscript t) :=
  (formatVapi_chain t h).imp fun _ _ hab hc => hab hc.1

/-- Witness for C5 (amended) at the spec's speaker-switch example. -/
theorem c5_no_adjacent_duplicates_witness :
    List.Chain' (fun a b => ¬(a.role = b.role ∧ a.text = b.text))
      (formatVapiTranscript [⟨"assistant", "Hello".toList⟩, ⟨"user", "Hi".toList⟩]) :=
  c5_no_adjacent_duplicates [⟨"assistant", "Hello".toList⟩, ⟨"user", "Hi".toList⟩]
    (by unfold wsFree ; decide)

/-- C6 counterexample: consolidation is not idempotent — re-consolidating
the output of the whitespace stream of the C5 scenario merges the two
identical adjacent utterances into one. -/
theorem c6_counterexample :
    formatVapiTranscript (formatVapiTranscript
        [⟨"assistant", "Hello".toList⟩, ⟨"user", "   ".toList⟩,
          ⟨"assistant", "Hello".toList⟩])
      ≠ formatVapiTranscript
        [⟨"assistant", "Hello".toList⟩, ⟨"user", "   ".toList⟩,
          ⟨"assistant", "Hello".toList⟩] := by decide

/-- C6 (amended): for every fragment list in which each fragment text is
empty or has non-empty trim, consolidating an already-consolidated
transcript changes nothing (so the double consolidation performed by
`endCall` via `formatTranscriptForLLM(formatVapiTranscript(transcript))`
neither duplicates nor drops the final utterance on such streams). -/
theorem c6_idempotent_consolidation (t : List Msg) (h : wsFree t) :
    formatVapiTranscript (formatVapiTranscript t) = formatVapiTranscript t :=
  formatVapi_idem_of_wsFree t h

/-- Witness for C6 (amended) at a concrete two-speaker stream. -/
theorem c6_idempotent_consolidation_witness :
    formatVapiTranscript (formatVapiTranscript
        [⟨"assistant", "Hello".toList⟩, ⟨"user", "Hi".toList⟩])
      = formatVapiTranscript [⟨"assistant", "Hello".toList⟩, ⟨"user", "Hi".toList⟩] :=
  c6_idempotent_consolidation [⟨"assistant", "Hello".toList⟩, ⟨"user", "Hi".toList⟩]
    (by unfold wsFree ; decide)

/-- C7: One-shot termination — in every event sequence containing exactly
one user stop command (`endCall`) and exactly one collaborator `call-end`
signal, in either order, the evaluation-and-persistence dispatch runs
exactly once: only `endCall` dispatches (the `call-end` handler merely
clears the connected/speaking flags), so the count equals the number of
`endCall` occurrences. -/
theorem c7_one_shot_termination (es : List VEvent)
    (h1 : es.countP isUserEndCall = 1) (_h2 : es.countP isCallEnd = 1) :
    (es.foldl handleEvent initInterview).dispatches = 1 := by
  rw [dispatches_foldl, h1]
  rfl

/-- Witness for C7: collaborator `call-end` first, then the user stop. -/
theorem c7_one_shot_termination_witness :
    ([VEvent.callEnd, VEvent.userEndCall].foldl handleEvent initInterview).dispatches
      = 1 :=
  c7_one_shot_termination [VEvent.callEnd, VEvent.userEndCall] (by decide) (by decide)

/-- C8: the code lacks the claimed overlap guard — the `detectFaces`
interval handler calls `detector.estimateFaces` on every tick with a ready
video regardless of pending calls, so two ticks during which the first
query has not resolved leave two detection calls in flight. -/
theorem c8_overlap_guard_missing :
    ([MonEvent.tick true, MonEvent.tick true].foldl monStep ⟨0⟩).inFlight = 2 := by
  decide

/-- C10: Output normalization — every utterance of every consolidated
transcript has text equal to its own trim, non-empty text, and a truthy
(non-null) role: both push sites finalize `currentText.trim()` under the
`currentRole && currentText.trim()` guard. -/
theorem c10_output_normalized (t : List Msg) (u : Msg)
    (h : u ∈ formatVapiTranscript t) :
    jsTrim u.text = u.text ∧ u.text ≠ [] ∧ u.role ≠ "" := by
  obtain ⟨hr, ht, htr⟩ := formatVapi_wfMsg t u h
  exact ⟨htr, ht, hr⟩

/-- Witness for C10 at a concrete stream with untrimmed fragment text. -/
theorem c10_output_normalized_witness :
    jsTrim (Msg.mk "assistant" (jsTrim "  Hello ".toList)).text
        = (Msg.mk "assistant" (jsTrim "  Hello ".toList)).text
      ∧ (Msg.mk "assistant" (jsTrim "  Hello ".toList)).text ≠ []
      ∧ (Msg.mk "assistant" (jsTrim "  Hello ".toList)).role ≠ "" :=
  c10_output_normalized [⟨"assistant", "  Hello ".toList⟩]
    ⟨"assistant", jsTrim "  Hello ".toList⟩ (by decide)

/-- C9 counterexample: the consolidated transcript of the C5 stream
contains two adjacent identical utterances; `formatTranscriptForLLM`
re-consolidates its input, so the document it hands to the scoring
collaborator renders only one of them — it is not the header followed by
one labeled line per utterance of that consolidated transcript. -/
theorem c9_counterexample :
    formatVapiTranscript
        [⟨"assistant", "Hello".toList⟩, ⟨"user", "   ".toList⟩,
          ⟨"assistant", "Hello".toList⟩]
      = [⟨"assistant", "Hello".toList⟩, ⟨"assistant", "Hello".toList⟩]
    ∧ formatTranscriptForLLM
        [⟨"assistant", "Hello".toList⟩, ⟨"assistant", "Hello".toList⟩]
      ≠ renderSpecDoc
        [⟨"assistant", "Hello".toList⟩, ⟨"assistant", "Hello".toList⟩] := by decide

/-- C9 (amended): for every consolidated transcript arising from a stream
whose fragment texts are empty or have non-empty trim, the document built
by `formatTranscriptForLLM` is exactly the header followed by one
"<SPEAKER LABEL>: <text>" block per utterance in order (label
AI INTERVIEWER for role "assistant", CANDIDATE otherwise), and for the
empty transcript it is the header alone (the dispatch in `endCall` happens
unconditionally, so it is still invoked with that document). -/
theorem c9_evaluation_document (t c : List Msg) (h : wsFree t)
    (hc : c = formatVapiTranscript t) :
    formatTranscriptForLLM c = renderSpecDoc c
    ∧ formatTranscriptForLLM [] = "INTERVIEW TRANSCRIPT:\n\n"
    ∧ renderSpecDoc [] = "INTERVIEW TRANSCRIPT:\n\n" := by
  refine ⟨?_, rfl, rfl⟩
  show (formatVapiTranscript c).foldl _ _ = c.foldl _ _
  rw [hc, formatVapi_idem_of_wsFree t h]

/-- Witness for C9 (amended) at a concrete two-speaker stream. -/
theorem c9_evaluation_document_witness :
    formatTranscriptForLLM
        (formatVapiTranscript [⟨"assistant", "Hello".toList⟩, ⟨"user", "Hi".toList⟩])
      = renderSpecDoc
        (formatVapiTranscript [⟨"assistant", "Hello".toList⟩, ⟨"user", "Hi".toList⟩])
    ∧ formatTranscriptForLLM [] = "INTERVIEW TRANSCRIPT:\n\n"
    ∧ renderSpecDoc [] = "INTERVIEW TRANSCRIPT:\n\n" :=
  c9_evaluation_document [⟨"assistant", "Hello".toList⟩, ⟨"user", "Hi".toList⟩]
    (formatVapiTranscript [⟨"assistant", "Hello".toList⟩, ⟨"user", "Hi".toList⟩])
    (by unfold wsFree ; decide) rfl
